import Mathlib

/-!
Verification of the bulk-operations engine of the erpdev inventory front end
(src/inventory/static/inventory/js/bulk-operations.js), shallowly embedded:
selection tracking, chunked batch submission, progress reporting, error
accumulation, the invocation guards, and the cancellation flag.
-/

namespace ErpBulk

/-- Outcome of one bulk-endpoint request, exactly as the source distinguishes
them: the fetch resolves to a body whose success field is true (the code then
ignores any errors field), or it resolves with success false carrying an
optional errors array (result.errors), or the fetch itself throws carrying a
message. -/
inductive ChunkOutcome where
  | ok : ChunkOutcome
  | remoteFail : Option (List String) → ChunkOutcome
  | netFail : String → ChunkOutcome

/-- Outcome of one per-item adjust-stock request: response success true,
response success false with result.error, or a thrown fetch with a message. -/
inductive ItemOutcome where
  | ok : ItemOutcome
  | remoteFail : String → ItemOutcome
  | netFail : String → ItemOutcome

/-- Mirrors the source test if (result.success); a thrown fetch never reaches
that test. -/
def isOk : ChunkOutcome → Bool
  | .ok => true
  | _ => false

def isOkItem : ItemOutcome → Bool
  | .ok => true
  | _ => false

/-- Messages pushed for a failed batch request: errors.push(...(result.errors
|| [unknown])) keeps the servers array whenever the field is present (even an
empty array is truthy in JavaScript), otherwise pushes the fallback entry; the
catch branch pushes one batch-scoped message. -/
def chunkErrs : ChunkOutcome → List String
  | .ok => []
  | .remoteFail none => ["Unknown error in batch"]
  | .remoteFail (some es) => es
  | .netFail m => ["Batch error: " ++ m]

/-- Messages pushed for product pid in executeBulkStockAdjustment: both the
success false branch and the catch branch push one item-scoped entry. -/
def itemErrs (pid : String) : ItemOutcome → List String
  | .ok => []
  | .remoteFail e => ["Product " ++ pid ++ ": " ++ e]
  | .netFail e => ["Product " ++ pid ++ ": " ++ e]

/-- Fuel-driven core of the slice loop for (let i = 0; i < n; i += batchSize),
where each iteration takes ids.slice(i, i + batchSize): fuel bounds the number
of iterations, and the list length is enough fuel for any positive batch
size. -/
def chunksOfAux {α : Type} (B : Nat) : Nat → List α → List (List α)
  | 0, _ => []
  | _ + 1, [] => []
  | fuel + 1, a :: l => (a :: l).take B :: chunksOfAux B fuel ((a :: l).drop B)

/-- The consecutive batches ids.slice(i, i + B) taken by the source loops
(B = 10 in executeBulkUpdate, B = 20 in bulkActivateDeactivate; the source
only ever runs the loop with those positive batch sizes). -/
def chunksOf {α : Type} (B : Nat) (l : List α) : List (List α) :=
  chunksOfAux B l.length l

/-- The mutable tallies of one run of an operation callback inside
executeOperation: the completed counter, the errors array, the argument pairs
(completed, total) of every progress.update call made so far, and the product
id batches dispatched as requests so far. -/
structure RunState where
  completed : Nat
  errors : List String
  progressCalls : List (Nat × Nat)
  requests : List (List String)
deriving DecidableEq

def initRunState : RunState := ⟨0, [], [], []⟩

/-- Loop body of executeBulkUpdate and bulkActivateDeactivate for one batch:
the request is dispatched; on success completed grows by the batch length and
progress.update(completed, total, message) is called; otherwise the error
messages are pushed and completed is untouched. -/
def stepChunk (total : Nat) (c : List String) (o : ChunkOutcome) (st : RunState) : RunState :=
  if isOk o then
    { st with
      completed := st.completed + c.length
      progressCalls := st.progressCalls ++ [(st.completed + c.length, total)]
      requests := st.requests ++ [c] }
  else
    { st with
      errors := st.errors ++ chunkErrs o
      requests := st.requests ++ [c] }

/-- The chunked for-loop; k is the index of the next chunk and env gives the
outcome of each request. -/
def runChunkedLoop (total : Nat) (env : Nat → ChunkOutcome) :
    List (List String) → Nat → RunState → RunState
  | [], _, st => st
  | c :: cs, k, st => runChunkedLoop total env cs (k + 1) (stepChunk total c (env k) st)

/-- The operation callback of executeBulkUpdate: batches of 10 over the
selection snapshot, total = selectedIds.length. -/
def executeBulkUpdateRun (ids : List String) (env : Nat → ChunkOutcome) : RunState :=
  runChunkedLoop ids.length env (chunksOf 10 ids) 0 initRunState

/-- The operation callback of bulkActivateDeactivate: batches of 20; the
activate flag only selects the is_active payload value and the message text,
which no claim inspects. -/
def bulkActivateDeactivateRun (_activate : Bool) (ids : List String)
    (env : Nat → ChunkOutcome) : RunState :=
  runChunkedLoop ids.length env (chunksOf 20 ids) 0 initRunState

/-- Loop body of executeBulkStockAdjustment for one product id: one request
per item; on success completed is incremented and progress.update is called,
otherwise one item-scoped error entry is pushed (the 100 ms pacing pause has
no observable effect on the tallies). -/
def stepItem (total : Nat) (pid : String) (o : ItemOutcome) (st : RunState) : RunState :=
  if isOkItem o then
    { st with
      completed := st.completed + 1
      progressCalls := st.progressCalls ++ [(st.completed + 1, total)]
      requests := st.requests ++ [[pid]] }
  else
    { st with
      errors := st.errors ++ itemErrs pid o
      requests := st.requests ++ [[pid]] }

/-- The per-item for-loop of executeBulkStockAdjustment. -/
def runStockLoop (total : Nat) (env : Nat → ItemOutcome) :
    List String → Nat → RunState → RunState
  | [], _, st => st
  | p :: ps, k, st => runStockLoop total env ps (k + 1) (stepItem total p (env k) st)

/-- The operation callback of executeBulkStockAdjustment. -/
def executeBulkStockAdjustmentRun (ids : List String) (env : Nat → ItemOutcome) : RunState :=
  runStockLoop ids.length env ids 0 initRunState

/-- The object each operation callback returns to executeOperation. -/
structure OpResult where
  success : Bool
  completed : Nat
  total : Nat
  errors : List String
deriving DecidableEq

/-- return ( success: errors.length === 0, completed, total, errors ). -/
def opResult (total : Nat) (st : RunState) : OpResult :=
  ⟨st.errors.length == 0, st.completed, total, st.errors⟩

/-- The number shown in the successCount badge: progress.update overwrites it
with completed on every call, and it starts at 0. -/
def displayedSuccess (st : RunState) : Nat :=
  (st.progressCalls.map Prod.fst).getLastD 0

/-- Length a chunk contributes to completed: its size when the request
succeeded, nothing otherwise. -/
def okLen (o : ChunkOutcome) (c : List String) : Nat :=
  if isOk o then c.length else 0

/-- Total size of the chunks whose requests succeeded, starting at chunk
index k. -/
def okLenSum (env : Nat → ChunkOutcome) : Nat → List (List String) → Nat
  | _, [] => 0
  | k, c :: cs => okLen (env k) c + okLenSum env (k + 1) cs

/-- Concatenation of the error messages contributed by each chunk in order. -/
def allErrs (env : Nat → ChunkOutcome) : Nat → List (List String) → List String
  | _, [] => []
  | k, _ :: cs => chunkErrs (env k) ++ allErrs env (k + 1) cs

/-- Number of items whose adjust-stock request succeeded, starting at index
k. -/
def okItemCount (env : Nat → ItemOutcome) : Nat → List String → Nat
  | _, [] => 0
  | k, _ :: ps => (if isOkItem (env k) then 1 else 0) + okItemCount env (k + 1) ps

/-- Concatenation of the item-scoped error messages in order. -/
def allItemErrs (env : Nat → ItemOutcome) : Nat → List String → List String
  | _, [] => []
  | k, p :: ps => itemErrs p (env k) ++ allItemErrs env (k + 1) ps

/-- The (completed, total) pairs passed to progress.update by the chunked
loop, starting from completed = comp at chunk index k. -/
def callsOf (total : Nat) (env : Nat → ChunkOutcome) :
    Nat → Nat → List (List String) → List (Nat × Nat)
  | _, _, [] => []
  | k, comp, c :: cs =>
    if isOk (env k) then
      (comp + c.length, total) :: callsOf total env (k + 1) (comp + c.length) cs
    else
      callsOf total env (k + 1) comp cs

/-- View of a per-item outcome as a chunk outcome with the same success bit,
used to share the progress-call analysis between the two loops. -/
def liftItemEnv (env : Nat → ItemOutcome) : Nat → ChunkOutcome := fun k =>
  match env k with
  | .ok => .ok
  | .remoteFail e => .remoteFail (some [e])
  | .netFail m => .netFail m

/-- The manager state read by the invocation guards: the selection Set (as its
insertion-ordered element list) and the operationInProgress flag. -/
structure MgrState where
  selectedItems : List String
  operationInProgress : Bool
deriving DecidableEq

inductive UIEffect where
  | alert : String → String → UIEffect
  | dispatch : String → UIEffect
deriving DecidableEq

def knownActions : List String :=
  ["update", "adjust-stock", "activate", "deactivate", "export"]

/-- Guard layer of handleBulkAction: the in-progress check, then the empty
selection check, then the switch; the five known branches, which open modals
or start the operation, are condensed into a dispatch marker, and the default
branch raises the unknown-action alert. -/
def handleBulkAction (st : MgrState) (action : String) : MgrState × List UIEffect :=
  if st.operationInProgress then
    (st, [UIEffect.alert "Another operation is already in progress" "warning"])
  else if st.selectedItems.length = 0 then
    (st, [UIEffect.alert "Please select items first" "warning"])
  else if action ∈ knownActions then
    (st, [UIEffect.dispatch action])
  else
    (st, [UIEffect.alert ("Unknown action: " ++ action) "error"])

/-- Set.add on the selection: a JavaScript Set keeps insertion order and
ignores an already present key. -/
def setAdd (sel : List String) (itemId : String) : List String :=
  if itemId ∈ sel then sel else sel ++ [itemId]

/-- Set.delete on the selection. -/
def setDelete (sel : List String) (itemId : String) : List String :=
  sel.erase itemId

/-- handleItemSelection: checkbox.value is added when the box is checked and
deleted otherwise; the toolbar and header-checkbox refreshes only read the
state. -/
def handleItemSelection (checked : Bool) (itemId : String) (sel : List String) : List String :=
  if checked then setAdd sel itemId else setDelete sel itemId

/-- The update_fields checkboxes ticked in the bulk update form: the only part
of the FormData that parseUpdateFormData stores in updateData.fields. The per
field value parsing feeds the request payload, which no claim inspects. -/
structure BulkUpdateForm where
  update_fields : List String
deriving DecidableEq

/-- updateData.fields = formData.getAll(update_fields). -/
def parseUpdateFormDataFields (fd : BulkUpdateForm) : List String :=
  fd.update_fields

inductive UpdateEffect where
  | alert : String → String → UpdateEffect
  | hideUpdateModal : UpdateEffect
  | runOperation : UpdateEffect
deriving DecidableEq

/-- executeBulkUpdate: the empty update_fields guard returns with only a
warning alert; otherwise the update modal is hidden, the operation runs over
the current selection under executeOperation (which shows the progress
modal), and refreshProductList clears the selection afterwards. -/
def executeBulkUpdate (st : MgrState) (fd : BulkUpdateForm) (env : Nat → ChunkOutcome) :
    MgrState × List UpdateEffect × Option RunState :=
  if (parseUpdateFormDataFields fd).length = 0 then
    (st, [UpdateEffect.alert "Please select at least one field to update" "warning"], none)
  else
    ({ st with selectedItems := [] },
      [UpdateEffect.hideUpdateModal, UpdateEffect.runOperation],
      some (executeBulkUpdateRun st.selectedItems env))

/-- executeOperation wraps the run with operationInProgress set to true; the
cancel button handler flips that flag and only touches UI text besides. -/
structure CancelState where
  run : RunState
  operationInProgress : Bool
deriving DecidableEq

/-- cancelCurrentOperation: if the flag is set, clear it (the remaining
effects are alert and display changes only). -/
def cancelCurrentOperation (st : CancelState) : CancelState :=
  if st.operationInProgress then { st with operationInProgress := false } else st

/-- The chunk loop of executeBulkUpdate with user cancel events interleaved at
chunk boundaries: cancelAt k is true when the cancel button is clicked right
before chunk k would start (that is, after chunk k - 1 finished). The source
loop body never reads operationInProgress, so the event only flips the
flag. -/
def runChunkedLoopC (total : Nat) (env : Nat → ChunkOutcome) (cancelAt : Nat → Bool) :
    List (List String) → Nat → CancelState → CancelState
  | [], _, st => st
  | c :: cs, k, st =>
    let st1 := if cancelAt k then cancelCurrentOperation st else st
    runChunkedLoopC total env cancelAt cs (k + 1)
      { st1 with run := stepChunk total c (env k) st1.run }

/-- executeBulkUpdate run together with the boundary cancel events. -/
def executeBulkUpdateRunWithCancel (ids : List String) (env : Nat → ChunkOutcome)
    (cancelAt : Nat → Bool) : CancelState :=
  runChunkedLoopC ids.length env cancelAt (chunksOf 10 ids) 0 ⟨initRunState, true⟩

/-- The selection 1..25 of the spec scenario; checkbox values are strings. -/
def ids25 : List String :=
  ["1", "2", "3", "4", "5", "6", "7", "8", "9", "10", "11", "12", "13", "14",
   "15", "16", "17", "18", "19", "20", "21", "22", "23", "24", "25"]

def envAllOk : Nat → ChunkOutcome := fun _ => ChunkOutcome.ok

/-- Ten server-reported messages for the items of the failing second batch. -/
def chunk2Errs : List String :=
  ["Product 11: update failed", "Product 12: update failed",
   "Product 13: update failed", "Product 14: update failed",
   "Product 15: update failed", "Product 16: update failed",
   "Product 17: update failed", "Product 18: update failed",
   "Product 19: update failed", "Product 20: update failed"]

/-- Environment of the scenario: the second request (chunk index 1) reports
failure with the ten messages, every other request succeeds. -/
def envChunk2Fails : Nat → ChunkOutcome := fun k =>
  if k = 1 then ChunkOutcome.remoteFail (some chunk2Errs) else ChunkOutcome.ok

/-- The user clicks cancel after the first chunk completes, before the second
starts. -/
def cancelAfterChunk1 : Nat → Bool := fun k => k == 1

/-- The fuel argument of chunksOfAux is irrelevant once it covers the list
length. -/
theorem chunksOfAux_congr {α : Type} {B : Nat} (hB : 0 < B) :
    ∀ (f₁ f₂ : Nat) (l : List α), l.length ≤ f₁ → l.length ≤ f₂ →
      chunksOfAux B f₁ l = chunksOfAux B f₂ l := by
  intro f₁
  induction f₁ with
  | zero =>
    intro f₂ l h₁ _
    have hl : l = [] := List.eq_nil_of_length_eq_zero (Nat.le_zero.mp h₁)
    subst hl
    cases f₂ <;> rfl
  | succ f ih =>
    intro f₂ l h₁ h₂
    cases l with
    | nil => cases f₂ <;> rfl
    | cons a t =>
      cases f₂ with
      | zero => simp at h₂
      | succ g =>
        simp only [chunksOfAux]
        congr 1
        have hd : ((a :: t).drop B).length = t.length + 1 - B := by
          simp [List.length_drop]
        apply ih
        · rw [hd]; simp only [List.length_cons] at h₁; omega
        · rw [hd]; simp only [List.length_cons] at h₂; omega

/-- Unfolding rule of the slice loop on a nonempty list. -/
theorem chunksOf_cons {α : Type} {B : Nat} (hB : 0 < B) (l : List α) (hl : l ≠ []) :
    chunksOf B l = l.take B :: chunksOf B (l.drop B) := by
  cases l with
  | nil => exact absurd rfl hl
  | cons a t =>
    show chunksOfAux B (t.length + 1) (a :: t) = _
    simp only [chunksOfAux, chunksOf]
    congr 1
    apply chunksOfAux_congr hB
    · simp only [List.length_drop, List.length_cons]; omega
    · exact le_rfl

theorem chunksOfAux_flatten {α : Type} {B : Nat} (hB : 0 < B) :
    ∀ (fuel : Nat) (l : List α), l.length ≤ fuel → (chunksOfAux B fuel l).flatten = l := by
  intro fuel
  induction fuel with
  | zero =>
    intro l h
    have hl : l = [] := List.eq_nil_of_length_eq_zero (Nat.le_zero.mp h)
    subst hl; rfl
  | succ f ih =>
    intro l h
    cases l with
    | nil => rfl
    | cons a t =>
      simp only [chunksOfAux, List.flatten_cons]
      rw [ih]
      · exact List.take_append_drop B (a :: t)
      · simp only [List.length_drop, List.length_cons]
        simp only [List.length_cons] at h
        omega

/-- The chunks concatenate back to the original list: the loop covers the
selection exactly, without overlap. -/
theorem chunksOf_flatten {α : Type} {B : Nat} (hB : 0 < B) (l : List α) :
    (chunksOf B l).flatten = l :=
  chunksOfAux_flatten hB l.length l le_rfl

theorem chunksOfAux_length {α : Type} {B : Nat} (hB : 0 < B) :
    ∀ (fuel : Nat) (l : List α), l.length ≤ fuel →
      (chunksOfAux B fuel l).length = (l.length + B - 1) / B := by
  intro fuel
  induction fuel with
  | zero =>
    intro l h
    have hl : l = [] := List.eq_nil_of_length_eq_zero (Nat.le_zero.mp h)
    subst hl
    show 0 = (0 + B - 1) / B
    rw [Nat.div_eq_of_lt (by omega)]
  | succ f ih =>
    intro l h
    cases l with
    | nil =>
      show 0 = (0 + B - 1) / B
      rw [Nat.div_eq_of_lt (by omega)]
    | cons a t =>
      simp only [chunksOfAux, List.length_cons]
      rw [ih _ (by
        simp only [List.length_drop, List.length_cons]
        simp only [List.length_cons] at h
        omega)]
      simp only [List.length_drop, List.length_cons]
      have h₁ : t.length + 1 + B - 1 = t.length + B := by omega
      rw [h₁, Nat.add_div_right _ hB]
      congr 1
      by_cases hc : t.length + 1 ≤ B
      · have e1 : t.length + 1 - B = 0 := by omega
        rw [e1, Nat.div_eq_of_lt (by omega), Nat.div_eq_of_lt (by omega)]
      · have e1 : t.length + 1 - B + B - 1 = t.length := by omega
        rw [e1]

/-- Number of chunks is the ceiling of size over batch size. -/
theorem chunksOf_length {α : Type} {B : Nat} (hB : 0 < B) (l : List α) :
    (chunksOf B l).length = (l.length + B - 1) / B :=
  chunksOfAux_length hB l.length l le_rfl

theorem chunksOfAux_sizes {α : Type} {B : Nat} (hB : 0 < B) :
    ∀ (fuel : Nat) (l : List α), l.length ≤ fuel →
      List.Forall (fun c : List α => c.length ≤ B) (chunksOfAux B fuel l) := by
  intro fuel
  induction fuel with
  | zero =>
    intro l h
    have hl : l = [] := List.eq_nil_of_length_eq_zero (Nat.le_zero.mp h)
    subst hl; exact trivial
  | succ f ih =>
    intro l h
    cases l with
    | nil => exact trivial
    | cons a t =>
      simp only [chunksOfAux, List.forall_cons]
      constructor
      · rw [List.length_take]; exact Nat.min_le_left _ _
      · apply ih
        simp only [List.length_drop, List.length_cons]
        simp only [List.length_cons] at h
        omega

/-- No chunk is larger than the batch size. -/
theorem chunksOf_sizes {α : Type} {B : Nat} (hB : 0 < B) (l : List α) :
    List.Forall (fun c : List α => c.length ≤ B) (chunksOf B l) :=
  chunksOfAux_sizes hB l.length l le_rfl

/-- The chunk sizes sum back to the selection size. -/
theorem sum_chunksOf_sizes {α : Type} {B : Nat} (hB : 0 < B) (l : List α) :
    ((chunksOf B l).map List.length).sum = l.length := by
  rw [← List.length_flatten, chunksOf_flatten hB l]

theorem isOk_eq_ok {o : ChunkOutcome} (h : isOk o = true) : o = ChunkOutcome.ok := by
  cases o <;> simp [isOk] at h ⊢

/-- Every chunk is dispatched, whatever the outcomes are. -/
theorem runChunkedLoop_requests (total : Nat) (env : Nat → ChunkOutcome) :
    ∀ (cs : List (List String)) (k : Nat) (st : RunState),
      (runChunkedLoop total env cs k st).requests = st.requests ++ cs := by
  intro cs
  induction cs with
  | nil => intro k st; simp [runChunkedLoop]
  | cons c cs ih =>
    intro k st
    simp only [runChunkedLoop]
    rw [ih]
    by_cases hok : isOk (env k) = true <;> simp [stepChunk, hok]

/-- completed accumulates exactly the sizes of the successful chunks. -/
theorem runChunkedLoop_completed (total : Nat) (env : Nat → ChunkOutcome) :
    ∀ (cs : List (List String)) (k : Nat) (st : RunState),
      (runChunkedLoop total env cs k st).completed = st.completed + okLenSum env k cs := by
  intro cs
  induction cs with
  | nil => intro k st; simp [runChunkedLoop, okLenSum]
  | cons c cs ih =>
    intro k st
    simp only [runChunkedLoop, okLenSum]
    rw [ih]
    by_cases hok : isOk (env k) = true
    · simp [stepChunk, okLen, hok, Nat.add_assoc]
    · simp [stepChunk, okLen, hok]

/-- The error list accumulates the per-chunk contributions in order. -/
theorem runChunkedLoop_errors (total : Nat) (env : Nat → ChunkOutcome) :
    ∀ (cs : List (List String)) (k : Nat) (st : RunState),
      (runChunkedLoop total env cs k st).errors = st.errors ++ allErrs env k cs := by
  intro cs
  induction cs with
  | nil => intro k st; simp [runChunkedLoop, allErrs]
  | cons c cs ih =>
    intro k st
    simp only [runChunkedLoop, allErrs]
    rw [ih]
    by_cases hok : isOk (env k) = true
    · rw [isOk_eq_ok hok]
      simp [stepChunk, isOk, chunkErrs]
    · simp [stepChunk, hok]

/-- The progress.update calls of the loop are callsOf. -/
theorem runChunkedLoop_calls (total : Nat) (env : Nat → ChunkOutcome) :
    ∀ (cs : List (List String)) (k : Nat) (st : RunState),
      (runChunkedLoop total env cs k st).progressCalls
        = st.progressCalls ++ callsOf total env k st.completed cs := by
  intro cs
  induction cs with
  | nil => intro k st; simp [runChunkedLoop, callsOf]
  | cons c cs ih =>
    intro k st
    simp only [runChunkedLoop, callsOf]
    rw [ih]
    by_cases hok : isOk (env k) = true
    · simp [stepChunk, hok]
    · simp [stepChunk, hok]

/-- Every reported completed value is at least the starting count. -/
theorem callsOf_lb (total : Nat) (env : Nat → ChunkOutcome) :
    ∀ (cs : List (List String)) (k comp : Nat),
      List.Forall (fun p : Nat × Nat => comp ≤ p.1) (callsOf total env k comp cs) := by
  intro cs
  induction cs with
  | nil => intro k comp; exact trivial
  | cons c cs ih =>
    intro k comp
    by_cases hok : isOk (env k) = true
    · simp only [callsOf, hok, if_true, List.forall_cons]
      refine ⟨Nat.le_add_right _ _, ?_⟩
      exact (ih (k + 1) (comp + c.length)).imp fun p hp => le_trans (Nat.le_add_right _ _) hp
    · simp only [callsOf, hok, if_false]
      exact ih (k + 1) comp

/-- Every reported completed value is bounded by the final tally. -/
theorem callsOf_ub (total : Nat) (env : Nat → ChunkOutcome) :
    ∀ (cs : List (List String)) (k comp : Nat),
      List.Forall (fun p : Nat × Nat => p.1 ≤ comp + okLenSum env k cs)
        (callsOf total env k comp cs) := by
  intro cs
  induction cs with
  | nil => intro k comp; exact trivial
  | cons c cs ih =>
    intro k comp
    by_cases hok : isOk (env k) = true
    · have hsum : okLenSum env k (c :: cs) = c.length + okLenSum env (k + 1) cs := by
        simp [okLenSum, okLen, hok]
      simp only [callsOf]
      rw [if_pos hok, List.forall_cons]
      constructor
      · show comp + c.length ≤ comp + okLenSum env k (c :: cs)
        rw [hsum]; omega
      · refine (ih (k + 1) (comp + c.length)).imp fun p hp => ?_
        rw [hsum]; omega
    · have hsum : okLenSum env k (c :: cs) = okLenSum env (k + 1) cs := by
        simp [okLenSum, okLen, hok]
      simp only [callsOf]
      rw [if_neg hok]
      refine (ih (k + 1) comp).imp fun p hp => ?_
      rw [hsum]; exact hp

/-- The reported completed values are non-decreasing. -/
theorem callsOf_chain (total : Nat) (env : Nat → ChunkOutcome) :
    ∀ (cs : List (List String)) (k comp : Nat),
      List.Chain' (· ≤ ·) ((callsOf total env k comp cs).map Prod.fst) := by
  intro cs
  induction cs with
  | nil => intro k comp; simp [callsOf]
  | cons c cs ih =>
    intro k comp
    by_cases hok : isOk (env k) = true
    · simp only [callsOf, hok, if_true, List.map_cons]
      rw [List.chain'_cons']
      refine ⟨?_, ih (k + 1) (comp + c.length)⟩
      intro y hy
      have hmem : y ∈ (callsOf total env (k + 1) (comp + c.length) cs).map Prod.fst :=
        List.mem_of_mem_head? hy
      obtain ⟨p, hp, rfl⟩ := List.mem_map.mp hmem
      have hb := callsOf_lb total env cs (k + 1) (comp + c.length)
      rw [List.forall_iff_forall_mem] at hb
      exact hb p hp
    · simp only [callsOf, hok, if_false]
      exact ih (k + 1) comp

/-- The last reported completed value (or the start value when nothing was
reported) is the final tally. -/
theorem callsOf_getLastD (total : Nat) (env : Nat → ChunkOutcome) :
    ∀ (cs : List (List String)) (k comp : Nat),
      ((callsOf total env k comp cs).map Prod.fst).getLastD comp
        = comp + okLenSum env k cs := by
  intro cs
  induction cs with
  | nil => intro k comp; simp [callsOf, okLenSum]
  | cons c cs ih =>
    intro k comp
    by_cases hok : isOk (env k) = true
    · have hsum : okLenSum env k (c :: cs) = c.length + okLenSum env (k + 1) cs := by
        simp [okLenSum, okLen, hok]
      simp only [callsOf]
      rw [if_pos hok]
      simp only [List.map_cons, List.getLastD_cons]
      rw [ih (k + 1) (comp + c.length), hsum]
      omega
    · have hsum : okLenSum env k (c :: cs) = okLenSum env (k + 1) cs := by
        simp [okLenSum, okLen, hok]
      simp only [callsOf]
      rw [if_neg hok, ih (k + 1) comp, hsum]

theorem okLenSum_le (env : Nat → ChunkOutcome) :
    ∀ (cs : List (List String)) (k : Nat),
      okLenSum env k cs ≤ (cs.map List.length).sum := by
  intro cs
  induction cs with
  | nil => intro k; simp [okLenSum]
  | cons c cs ih =>
    intro k
    simp only [okLenSum, okLen, List.map_cons, List.sum_cons]
    have h1 : (if isOk (env k) then c.length else 0) ≤ c.length := by
      by_cases hok : isOk (env k) = true <;> simp [hok]
    exact Nat.add_le_add h1 (ih (k + 1))

theorem isOk_liftItemEnv (env : Nat → ItemOutcome) (k : Nat) :
    isOk (liftItemEnv env k) = isOkItem (env k) := by
  unfold liftItemEnv
  cases env k <;> rfl

/-- Every item is dispatched, whatever the outcomes are. -/
theorem runStockLoop_requests (total : Nat) (env : Nat → ItemOutcome) :
    ∀ (ps : List String) (k : Nat) (st : RunState),
      (runStockLoop total env ps k st).requests
        = st.requests ++ ps.map (fun p => [p]) := by
  intro ps
  induction ps with
  | nil => intro k st; simp [runStockLoop]
  | cons p ps ih =>
    intro k st
    simp only [runStockLoop, List.map_cons]
    rw [ih]
    by_cases hok : isOkItem (env k) = true <;> simp [stepItem, hok]

theorem runStockLoop_completed (total : Nat) (env : Nat → ItemOutcome) :
    ∀ (ps : List String) (k : Nat) (st : RunState),
      (runStockLoop total env ps k st).completed = st.completed + okItemCount env k ps := by
  intro ps
  induction ps with
  | nil => intro k st; simp [runStockLoop, okItemCount]
  | cons p ps ih =>
    intro k st
    simp only [runStockLoop, okItemCount]
    rw [ih]
    by_cases hok : isOkItem (env k) = true
    · simp [stepItem, hok, Nat.add_assoc]
    · simp [stepItem, hok]

theorem isOkItem_eq_ok {o : ItemOutcome} (h : isOkItem o = true) : o = ItemOutcome.ok := by
  cases o <;> simp [isOkItem] at h ⊢

theorem runStockLoop_errors (total : Nat) (env : Nat → ItemOutcome) :
    ∀ (ps : List String) (k : Nat) (st : RunState),
      (runStockLoop total env ps k st).errors = st.errors ++ allItemErrs env k ps := by
  intro ps
  induction ps with
  | nil => intro k st; simp [runStockLoop, allItemErrs]
  | cons p ps ih =>
    intro k st
    simp only [runStockLoop, allItemErrs]
    rw [ih]
    by_cases hok : isOkItem (env k) = true
    · rw [isOkItem_eq_ok hok]
      simp [stepItem, isOkItem, itemErrs]
    · simp [stepItem, hok]

/-- The stock loop reports the same progress-call stream as a chunked loop
over singleton chunks with the lifted environment. -/
theorem runStockLoop_calls (total : Nat) (env : Nat → ItemOutcome) :
    ∀ (ps : List String) (k : Nat) (st : RunState),
      (runStockLoop total env ps k st).progressCalls
        = st.progressCalls
            ++ callsOf total (liftItemEnv env) k st.completed (ps.map (fun p => [p])) := by
  intro ps
  induction ps with
  | nil => intro k st; simp [runStockLoop, callsOf]
  | cons p ps ih =>
    intro k st
    simp only [runStockLoop, List.map_cons, callsOf, isOk_liftItemEnv]
    rw [ih]
    by_cases hok : isOkItem (env k) = true
    · simp [stepItem, hok]
    · simp [stepItem, hok]

theorem okItemCount_eq (env : Nat → ItemOutcome) :
    ∀ (ps : List String) (k : Nat),
      okItemCount env k ps = okLenSum (liftItemEnv env) k (ps.map (fun p => [p])) := by
  intro ps
  induction ps with
  | nil => intro k; simp [okItemCount, okLenSum]
  | cons p ps ih =>
    intro k
    simp only [okItemCount, List.map_cons, okLenSum, okLen, isOk_liftItemEnv]
    rw [ih (k + 1)]
    by_cases hok : isOkItem (env k) = true <;> simp [hok]

theorem okItemCount_le (env : Nat → ItemOutcome) :
    ∀ (ps : List String) (k : Nat), okItemCount env k ps ≤ ps.length := by
  intro ps
  induction ps with
  | nil => intro k; simp [okItemCount]
  | cons p ps ih =>
    intro k
    simp only [okItemCount, List.length_cons]
    have := ih (k + 1)
    by_cases hok : isOkItem (env k) = true <;> simp [hok] <;> omega

/-- Shared final-tally facts for a chunked run from the initial state. -/
theorem runChunked_facts (B : Nat) (hB : 0 < B) (ids : List String)
    (env : Nat → ChunkOutcome) :
    displayedSuccess (runChunkedLoop ids.length env (chunksOf B ids) 0 initRunState)
        = (runChunkedLoop ids.length env (chunksOf B ids) 0 initRunState).completed
    ∧ (runChunkedLoop ids.length env (chunksOf B ids) 0 initRunState).completed
        = okLenSum env 0 (chunksOf B ids)
    ∧ (runChunkedLoop ids.length env (chunksOf B ids) 0 initRunState).completed
        ≤ ids.length := by
  have hcomp := runChunkedLoop_completed ids.length env (chunksOf B ids) 0 initRunState
  have hcalls := runChunkedLoop_calls ids.length env (chunksOf B ids) 0 initRunState
  have hle : okLenSum env 0 (chunksOf B ids) ≤ ids.length := by
    calc okLenSum env 0 (chunksOf B ids) ≤ ((chunksOf B ids).map List.length).sum :=
          okLenSum_le env (chunksOf B ids) 0
      _ = ids.length := sum_chunksOf_sizes hB ids
  refine ⟨?_, ?_, ?_⟩
  · rw [displayedSuccess, hcalls, hcomp]
    show ((callsOf ids.length env 0 0 (chunksOf B ids)).map Prod.fst).getLastD 0
        = 0 + okLenSum env 0 (chunksOf B ids)
    exact callsOf_getLastD ids.length env (chunksOf B ids) 0 0
  · rw [hcomp]
    simp [initRunState]
  · rw [hcomp]
    simpa [initRunState] using hle

/-- Shared final-tally facts for the per-item stock run. -/
theorem runStock_facts (ids : List String) (env : Nat → ItemOutcome) :
    displayedSuccess (executeBulkStockAdjustmentRun ids env)
        = (executeBulkStockAdjustmentRun ids env).completed
    ∧ (executeBulkStockAdjustmentRun ids env).completed = okItemCount env 0 ids
    ∧ (executeBulkStockAdjustmentRun ids env).completed ≤ ids.length := by
  have hcomp := runStockLoop_completed ids.length env ids 0 initRunState
  have hcalls := runStockLoop_calls ids.length env ids 0 initRunState
  refine ⟨?_, ?_, ?_⟩
  · rw [executeBulkStockAdjustmentRun, displayedSuccess, hcalls, hcomp]
    show ((callsOf ids.length (liftItemEnv env) 0 0 (ids.map (fun p => [p]))).map
          Prod.fst).getLastD 0
        = 0 + okItemCount env 0 ids
    rw [callsOf_getLastD ids.length (liftItemEnv env) (ids.map (fun p => [p])) 0 0]
    rw [okItemCount_eq env ids 0]
  · rw [executeBulkStockAdjustmentRun, hcomp]
    simp [initRunState]
  · rw [executeBulkStockAdjustmentRun, hcomp]
    have := okItemCount_le env ids 0
    simp only [initRunState]
    omega

theorem forall_fst_le {n : Nat} {l : List (Nat × Nat)}
    (h : List.Forall (fun p : Nat × Nat => p.1 ≤ n) l) :
    List.Forall (fun x : Nat => x ≤ n) (l.map Prod.fst) := by
  rw [List.forall_iff_forall_mem] at h ⊢
  intro x hx
  obtain ⟨p, hp, rfl⟩ := List.mem_map.mp hx
  exact h p hp

/-- The progress-call stream of a chunked run is non-decreasing and bounded
by the total. -/
theorem runChunked_calls_props (B : Nat) (hB : 0 < B) (ids : List String)
    (env : Nat → ChunkOutcome) :
    List.Chain' (· ≤ ·)
      (((runChunkedLoop ids.length env (chunksOf B ids) 0 initRunState).progressCalls).map
        Prod.fst)
    ∧ List.Forall (fun x : Nat => x ≤ ids.length)
        (((runChunkedLoop ids.length env (chunksOf B ids) 0 initRunState).progressCalls).map
          Prod.fst) := by
  have hcalls := runChunkedLoop_calls ids.length env (chunksOf B ids) 0 initRunState
  rw [hcalls]
  simp only [initRunState, List.nil_append]
  constructor
  · exact callsOf_chain ids.length env (chunksOf B ids) 0 0
  · apply forall_fst_le
    have hub := callsOf_ub ids.length env (chunksOf B ids) 0 0
    refine hub.imp fun p hp => ?_
    have hle : okLenSum env 0 (chunksOf B ids) ≤ ids.length := by
      calc okLenSum env 0 (chunksOf B ids) ≤ ((chunksOf B ids).map List.length).sum :=
            okLenSum_le env (chunksOf B ids) 0
        _ = ids.length := sum_chunksOf_sizes hB ids
    omega

/-- The progress-call stream of the per-item stock run is non-decreasing and
bounded by the total. -/
theorem runStock_calls_props (ids : List String) (env : Nat → ItemOutcome) :
    List.Chain' (· ≤ ·)
      (((executeBulkStockAdjustmentRun ids env).progressCalls).map Prod.fst)
    ∧ List.Forall (fun x : Nat => x ≤ ids.length)
        (((executeBulkStockAdjustmentRun ids env).progressCalls).map Prod.fst) := by
  have hcalls := runStockLoop_calls ids.length env ids 0 initRunState
  rw [executeBulkStockAdjustmentRun, hcalls]
  simp only [initRunState, List.nil_append]
  constructor
  · exact callsOf_chain ids.length (liftItemEnv env) (ids.map (fun p => [p])) 0 0
  · apply forall_fst_le
    have hub := callsOf_ub ids.length (liftItemEnv env) (ids.map (fun p => [p])) 0 0
    refine hub.imp fun p hp => ?_
    have hle : okLenSum (liftItemEnv env) 0 (ids.map (fun p => [p])) ≤ ids.length := by
      rw [← okItemCount_eq env ids 0]
      exact okItemCount_le env ids 0
    omega

/-- C1: the spec claims a user cancel between chunks stops all further chunks
and freezes completed at the boundary value. In the source,
cancelCurrentOperation only clears operationInProgress (and updates UI text),
and no batch loop ever reads that flag, so processing continues. Evaluating
the failing input: selection 1..25, field update, all requests succeed, and
cancel is clicked after chunk 1 (index boundary 1): the claim demands one
dispatched chunk and completed = 10, but all 3 chunks are dispatched and the
run ends with completed = 25, even though the cancel event did fire (the flag
ends false). -/
theorem c1_cancel_flag_never_checked :
    ((executeBulkUpdateRunWithCancel ids25 envAllOk cancelAfterChunk1).run.requests).map
        List.length = [10, 10, 5]
    ∧ (executeBulkUpdateRunWithCancel ids25 envAllOk cancelAfterChunk1).run.completed = 25
    ∧ (executeBulkUpdateRunWithCancel ids25 envAllOk cancelAfterChunk1).operationInProgress
        = false := by
  decide

/-- C2 counterexample: in the 25-item field-update run whose second batch
fails with ten server messages (and which is never cancelled), the final
tally has displayed success 15, errors.length 10 and completed 15, so
success + errors.length = completed fails (25 is not 15) and completed = total
fails (15 is not 25). -/
theorem c2_counterexample :
    ¬ (displayedSuccess (executeBulkUpdateRun ids25 envChunk2Fails)
          + (executeBulkUpdateRun ids25 envChunk2Fails).errors.length
        = (executeBulkUpdateRun ids25 envChunk2Fails).completed
      ∧ (executeBulkUpdateRun ids25 envChunk2Fails).completed = ids25.length) := by
  decide

/-- C2 amended: at terminal state the displayed success count equals
completed (the success badge is overwritten with completed on every progress
update), completed is exactly the summed size of the chunks, or the number of
items, whose requests succeeded, and completed never exceeds total; completed
falls short of total exactly when some chunk failed, cancellation playing no
role. Stated for all three operation kinds. -/
theorem c2_final_tally (ids : List String) (envC envA : Nat → ChunkOutcome)
    (act : Bool) (envI : Nat → ItemOutcome) :
    displayedSuccess (executeBulkUpdateRun ids envC)
        = (executeBulkUpdateRun ids envC).completed
    ∧ (executeBulkUpdateRun ids envC).completed = okLenSum envC 0 (chunksOf 10 ids)
    ∧ (executeBulkUpdateRun ids envC).completed ≤ ids.length
    ∧ displayedSuccess (bulkActivateDeactivateRun act ids envA)
        = (bulkActivateDeactivateRun act ids envA).completed
    ∧ (bulkActivateDeactivateRun act ids envA).completed
        = okLenSum envA 0 (chunksOf 20 ids)
    ∧ (bulkActivateDeactivateRun act ids envA).completed ≤ ids.length
    ∧ displayedSuccess (executeBulkStockAdjustmentRun ids envI)
        = (executeBulkStockAdjustmentRun ids envI).completed
    ∧ (executeBulkStockAdjustmentRun ids envI).completed = okItemCount envI 0 ids
    ∧ (executeBulkStockAdjustmentRun ids envI).completed ≤ ids.length := by
  have h10 := runChunked_facts 10 (by omega) ids envC
  have h20 := runChunked_facts 20 (by omega) ids envA
  have hs := runStock_facts ids envI
  exact ⟨h10.1, h10.2.1, h10.2.2, h20.1, h20.2.1, h20.2.2, hs.1, hs.2.1, hs.2.2⟩

/-- C3 counterexample: in the spec scenario (selection 1..25, batch size 10,
chunk 2 fails entirely) the claim says the job ends with completed = 25; the
code ends with completed = 15, because completed only counts successfully
updated batches. -/
theorem c3_counterexample :
    (executeBulkUpdateRun ids25 envChunk2Fails).completed ≠ 25 := by
  decide

/-- C3 amended: the run produces 3 chunks of sizes 10, 10, 5; when chunk 2
fails entirely the job ends with completed = 15 (and the success flag false),
the ten server-reported messages for the items of chunk 2 are recorded, and
chunk 3 is still processed: its request is dispatched and its progress update
(15 of 25) is reported after the failure. -/
theorem c3_amended_scenario :
    (executeBulkUpdateRun ids25 envChunk2Fails).requests.map List.length = [10, 10, 5]
    ∧ (executeBulkUpdateRun ids25 envChunk2Fails).completed = 15
    ∧ (executeBulkUpdateRun ids25 envChunk2Fails).errors = chunk2Errs
    ∧ (executeBulkUpdateRun ids25 envChunk2Fails).progressCalls = [(10, 25), (15, 25)]
    ∧ (opResult ids25.length (executeBulkUpdateRun ids25 envChunk2Fails)).success = false := by
  decide

/-- C4: every bulk operation partitions the selected ids into consecutive
chunks of its fixed per-kind batch size, 10 for field updates, 20 for
activate or deactivate, and 1 for stock adjustments (one request per item),
so the number of dispatched requests is ceil(size / B), written
(size + B - 1) / B on naturals; the chunks concatenate back to the selection
and none exceeds the batch size. -/
theorem c4_chunk_partition (ids : List String) (envC envA : Nat → ChunkOutcome)
    (act : Bool) (envI : Nat → ItemOutcome) :
    (executeBulkUpdateRun ids envC).requests.length = (ids.length + 9) / 10
    ∧ (chunksOf 10 ids).flatten = ids
    ∧ List.Forall (fun c : List String => c.length ≤ 10) (chunksOf 10 ids)
    ∧ (bulkActivateDeactivateRun act ids envA).requests.length = (ids.length + 19) / 20
    ∧ (chunksOf 20 ids).flatten = ids
    ∧ List.Forall (fun c : List String => c.length ≤ 20) (chunksOf 20 ids)
    ∧ (executeBulkStockAdjustmentRun ids envI).requests.length = ids.length := by
  have h10 : (0 : Nat) < 10 := by omega
  have h20 : (0 : Nat) < 20 := by omega
  refine ⟨?_, chunksOf_flatten h10 ids, chunksOf_sizes h10 ids, ?_,
    chunksOf_flatten h20 ids, chunksOf_sizes h20 ids, ?_⟩
  · rw [executeBulkUpdateRun, runChunkedLoop_requests]
    simp only [initRunState, List.nil_append]
    rw [chunksOf_length h10]
    have he : ids.length + 10 - 1 = ids.length + 9 := by omega
    rw [he]
  · rw [bulkActivateDeactivateRun, runChunkedLoop_requests]
    simp only [initRunState, List.nil_append]
    rw [chunksOf_length h20]
    have he : ids.length + 20 - 1 = ids.length + 19 := by omega
    rw [he]
  · rw [executeBulkStockAdjustmentRun, runStockLoop_requests]
    simp [initRunState]

/-- C5: across the progress callbacks of any single run, of any of the three
operation kinds, the reported completed count is non-decreasing and never
exceeds the total item count. -/
theorem c5_progress_monotone (ids : List String) (envC envA : Nat → ChunkOutcome)
    (act : Bool) (envI : Nat → ItemOutcome) :
    List.Chain' (· ≤ ·) (((executeBulkUpdateRun ids envC).progressCalls).map Prod.fst)
    ∧ List.Forall (fun x : Nat => x ≤ ids.length)
        (((executeBulkUpdateRun ids envC).progressCalls).map Prod.fst)
    ∧ List.Chain' (· ≤ ·)
        (((bulkActivateDeactivateRun act ids envA).progressCalls).map Prod.fst)
    ∧ List.Forall (fun x : Nat => x ≤ ids.length)
        (((bulkActivateDeactivateRun act ids envA).progressCalls).map Prod.fst)
    ∧ List.Chain' (· ≤ ·)
        (((executeBulkStockAdjustmentRun ids envI).progressCalls).map Prod.fst)
    ∧ List.Forall (fun x : Nat => x ≤ ids.length)
        (((executeBulkStockAdjustmentRun ids envI).progressCalls).map Prod.fst) := by
  have h10 := runChunked_calls_props 10 (by omega) ids envC
  have h20 := runChunked_calls_props 20 (by omega) ids envA
  have hs := runStock_calls_props ids envI
  exact ⟨h10.1, h10.2, h20.1, h20.2, hs.1, hs.2⟩

/-- C6: a failing chunk never aborts the rest of a run: for every environment
of outcomes, every chunk (every item for stock adjustments) is dispatched,
and the error list is exactly the in-order concatenation of each chunk's own
contribution, so each outcome is recorded independently: a thrown fetch
contributes one batch-scoped message (item-scoped for stock adjustments), a
success-false response contributes its server messages or the fallback entry,
and a success contributes nothing. -/
theorem c6_failures_isolated (ids : List String) (envC envA : Nat → ChunkOutcome)
    (act : Bool) (envI : Nat → ItemOutcome) :
    (executeBulkUpdateRun ids envC).requests = chunksOf 10 ids
    ∧ (executeBulkUpdateRun ids envC).errors = allErrs envC 0 (chunksOf 10 ids)
    ∧ (bulkActivateDeactivateRun act ids envA).requests = chunksOf 20 ids
    ∧ (bulkActivateDeactivateRun act ids envA).errors = allErrs envA 0 (chunksOf 20 ids)
    ∧ (executeBulkStockAdjustmentRun ids envI).requests = ids.map (fun p => [p])
    ∧ (executeBulkStockAdjustmentRun ids envI).errors = allItemErrs envI 0 ids := by
  refine ⟨?_, ?_, ?_, ?_, ?_, ?_⟩
  · rw [executeBulkUpdateRun, runChunkedLoop_requests]
    simp [initRunState]
  · rw [executeBulkUpdateRun, runChunkedLoop_errors]
    simp [initRunState]
  · rw [bulkActivateDeactivateRun, runChunkedLoop_requests]
    simp [initRunState]
  · rw [bulkActivateDeactivateRun, runChunkedLoop_errors]
    simp [initRunState]
  · rw [executeBulkStockAdjustmentRun, runStockLoop_requests]
    simp [initRunState]
  · rw [executeBulkStockAdjustmentRun, runStockLoop_errors]
    simp [initRunState]

/-- C7: invoking any bulk action while the operationInProgress flag is set is
rejected by the first guard with the warning alert, the state is returned
untouched, and no dispatch happens, whatever the action and the selection
are. -/
theorem c7_in_progress_guard (sel : List String) (action : String) :
    handleBulkAction ⟨sel, true⟩ action
      = (⟨sel, true⟩,
          [UIEffect.alert "Another operation is already in progress" "warning"]) := by
  simp [handleBulkAction]

/-- C8: invoking any bulk action with an empty selection leaves the state
untouched and produces a single warning alert and nothing else, so no job is
created; when no operation is in progress the warning is the select-items
one (with one in progress the in-progress guard fires first, still a warning
and still no job). -/
theorem c8_empty_selection_guard (action : String) (p : Bool) :
    (handleBulkAction ⟨[], p⟩ action).1 = ⟨[], p⟩
    ∧ (handleBulkAction ⟨[], p⟩ action).2
        = [UIEffect.alert
            (if p then "Another operation is already in progress"
             else "Please select items first") "warning"] := by
  cases p <;> simp [handleBulkAction]

/-- C9: the selection behaves as a set of ids: adding an id already selected
leaves it unchanged, deleting an id not selected leaves it unchanged, every
selection event preserves freedom from duplicates, and the size equals the
number of distinct selected ids. -/
theorem c9_selection_set (sel : List String) (a b : String) (c : Bool)
    (hnd : sel.Nodup) (ha : a ∈ sel) (hb : b ∉ sel) :
    handleItemSelection true a sel = sel
    ∧ handleItemSelection false b sel = sel
    ∧ (handleItemSelection c a sel).Nodup
    ∧ (handleItemSelection c b sel).Nodup
    ∧ sel.length = sel.dedup.length := by
  refine ⟨?_, ?_, ?_, ?_, ?_⟩
  · simp [handleItemSelection, setAdd, ha]
  · simp [handleItemSelection, setDelete, List.erase_of_not_mem hb]
  · cases c
    · exact hnd.erase a
    · simpa [handleItemSelection, setAdd, ha] using hnd
  · cases c
    · exact hnd.erase b
    · have hadd : handleItemSelection true b sel = sel ++ [b] := by
        simp [handleItemSelection, setAdd, hb]
      rw [hadd, List.nodup_append]
      exact ⟨hnd, List.nodup_singleton b, by
        intro x hx hxb
        simp only [List.mem_singleton] at hxb
        subst hxb
        exact hb hx⟩
  · rw [hnd.dedup]

theorem c9_selection_set_witness :
    handleItemSelection true "1" ["1", "2"] = ["1", "2"]
    ∧ handleItemSelection false "3" ["1", "2"] = ["1", "2"]
    ∧ (handleItemSelection true "1" ["1", "2"]).Nodup
    ∧ (handleItemSelection true "3" ["1", "2"]).Nodup
    ∧ (["1", "2"] : List String).length = (["1", "2"] : List String).dedup.length :=
  c9_selection_set ["1", "2"] "1" "3" true (by decide) (by decide) (by decide)

/-- C10: submitting the bulk-update form with zero update fields checked is
rejected before anything happens: executeBulkUpdate returns the state
unchanged (selection and in-progress flag included), emits only the warning
alert, does not hide the form modal or show the progress modal, and creates
no run, whatever the environment would have answered. -/
theorem c10_no_fields_guard (sel : List String) (p : Bool) (env : Nat → ChunkOutcome) :
    executeBulkUpdate ⟨sel, p⟩ ⟨[]⟩ env
      = (⟨sel, p⟩,
          [UpdateEffect.alert "Please select at least one field to update" "warning"],
          none) := by
  simp [executeBulkUpdate, parseUpdateFormDataFields]

end ErpBulk
